import Mathlib

/-!
# Shallow embedding of `src/import/linux-tools-perf.ts`

This file embeds the perf-script import adapter (`parseEvent`, `parseEvents`,
`importFromLinuxPerf`) of the repository into Lean and proves the frozen
claims about it.

The adapter is regex-driven, so we first build a small backtracking matcher
reproducing the JavaScript `RegExp` semantics for exactly the constructs the
source patterns use: character classes, literals, greedy/lazy `+` and `*`
over single-character classes, greedy `?`, capture groups, and the `$`
anchor.  `exec` on a `^`-anchored pattern is modelled by matching at
position 0; `exec` on an unanchored pattern by leftmost search.

JavaScript specifics that we reproduce:
 * `\s` is the (unicode) JS whitespace class, `.` excludes the four JS
   line terminators, `\d` is `[0-9]`;
 * a capture group inside an optional that does not participate in the
   final match is `undefined` (here: absent from the capture list);
 * quantifier preference: greedy tries longest first, lazy shortest first,
   with full backtracking through the continuation.

The profile-building library (`src/lib/profile`, `src/lib/utils`,
`src/lib/value-formatters`) is not part of the sources; the small pieces
the adapter touches are modelled from the spec where marked.
-/

namespace LinuxPerf

/-- Capture environment: group index ↦ captured characters; the head entry
for an index is the most recent assignment (`List.lookup` finds it). -/
abbrev Caps := List (Nat × List Char)

/-- Regular-expression AST covering the constructs used by the importer's
patterns.  Quantifiers (`rep`) apply only to single-character classes,
which is all the source patterns need and keeps matching terminating. -/
inductive Re where
  /-- matches the empty string -/
  | eps : Re
  /-- one character satisfying the class predicate -/
  | cls (p : Char → Bool) : Re
  /-- a literal character sequence -/
  | lit (l : List Char) : Re
  /-- concatenation -/
  | seq (a b : Re) : Re
  /-- `p+` / `p*` over a character class; `one = true` for `+`;
  `lazy = true` for the non-greedy variant -/
  | rep (p : Char → Bool) (one : Bool) (lazy : Bool) : Re
  /-- greedy `r?` -/
  | opt (r : Re) : Re
  /-- capture group with 1-based index as in JS (index 0 is the whole match) -/
  | group (i : Nat) (r : Re) : Re
  /-- the `$` anchor -/
  | eos : Re

/-- The characters consumed in going from input `s` to remaining suffix `s'`. -/
def charsTaken (s s' : List Char) : List Char :=
  s.take (s.length - s'.length)

def setCap (i : Nat) (v : List Char) (caps : Caps) : Caps :=
  (i, v) :: caps

/-- Backtracking matcher in continuation-passing style.  `mtch r s caps k`
tries the ways `r` can match a prefix of `s` in JS preference order and
passes the remaining suffix and updated captures to `k`; the first success
wins, mirroring a backtracking regex engine. -/
def mtch : Re → List Char → Caps → (List Char → Caps → Option Caps) → Option Caps
  | .eps, s, caps, k => k s caps
  | .cls p, s, caps, k =>
    match s with
    | [] => none
    | c :: rest => if p c then k rest caps else none
  | .lit l, s, caps, k =>
    if l.isPrefixOf s then k (s.drop l.length) caps else none
  | .seq a b, s, caps, k =>
    mtch a s caps (fun s' caps' => mtch b s' caps' k)
  | .rep p one lazy, s, caps, k =>
    let n := (s.takeWhile p).length
    let lo := if one then 1 else 0
    if n < lo then none
    else
      let idxs := List.range' lo (n - lo + 1)
      let ordered := if lazy then idxs else idxs.reverse
      List.foldr
        (fun i acc =>
          match k (s.drop i) caps with
          | some res => some res
          | none => acc)
        none ordered
  | .opt r, s, caps, k =>
    match mtch r s caps k with
    | some res => some res
    | none => k s caps
  | .group i r, s, caps, k =>
    mtch r s caps (fun s' caps' => k s' (setCap i (charsTaken s s') caps'))
  | .eos, s, caps, k =>
    if s.isEmpty then k s caps else none

/-- `re.exec(str)` for a `^`-anchored pattern: match at position 0 (the
whole match is recorded as group 0).  The match need not reach the end of
the string. -/
def reExecAt (re : Re) (s : List Char) : Option Caps :=
  mtch (.group 0 re) s [] (fun _ caps => some caps)

/-- Leftmost search: try position 0, then recurse on the tail, shifting
reported indices.  This is `re.exec(str)` for an unanchored pattern,
additionally reporting the match's start index. -/
def reSearchAux (re : Re) : List Char → Option (Nat × Caps)
  | [] => (reExecAt re []).map (fun caps => (0, caps))
  | s@(_ :: t) =>
    match reExecAt re s with
    | some caps => some (0, caps)
    | none => (reSearchAux re t).map (fun ic => (ic.1 + 1, ic.2))

/-- `str.replace(re, repl)` for a non-global pattern: splice the
replacement over the leftmost match, or return the string unchanged when
there is no match. -/
def replaceFirst (re : Re) (repl : List Char) (s : List Char) : List Char :=
  match reSearchAux re s with
  | none => s
  | some (i, caps) =>
    let m := (caps.lookup 0).getD []
    s.take i ++ repl ++ s.drop (i + m.length)

/-! ## Character classes of the source patterns -/

/-- The JavaScript `\\s` class (ECMA-262 WhiteSpace and LineTerminator):
space, tab, LF, VT, FF, CR, NBSP, Ogham space mark, the U+2000-200A
spaces, LS, PS, NNBSP, MMSP, ideographic space, and the BOM. -/
def jsWs (c : Char) : Bool :=
  c = ' ' || c = '\t' || c = '\n' || c = '\x0b' || c = '\x0c' || c = '\r'
  || c.toNat = 0xa0 || c.toNat = 0x1680
  || (0x2000 ≤ c.toNat && c.toNat ≤ 0x200a)
  || c.toNat = 0x2028 || c.toNat = 0x2029 || c.toNat = 0x202f
  || c.toNat = 0x205f || c.toNat = 0x3000 || c.toNat = 0xfeff

/-- The JavaScript `.` (any character but the four line terminators
LF, CR, LS, PS). -/
def jsDot (c : Char) : Bool :=
  !(c = '\n' || c = '\r' || c.toNat = 0x2028 || c.toNat = 0x2029)

/-- `[\da-f]`: the lowercase-hex class of the offset-strip pattern. -/
def isLowHex (c : Char) : Bool :=
  c.isDigit || ('a' ≤ c && c ≤ 'f')

/-- `[0-9a-fA-F]`: the address class of the stack-line pattern. -/
def isHexDigitJS (c : Char) : Bool :=
  c.isDigit || ('a' ≤ c && c ≤ 'f') || ('A' ≤ c && c ≤ 'F')

/-- `[0-9a-zA-Z\[\].\/\-_]`: the file class of the continuation-line
pattern. -/
def isFileChar (c : Char) : Bool :=
  c.isDigit || c.isAlpha || c = '[' || c = ']' || c = '.' || c = '/'
  || c = '-' || c = '_'

/-! ## The source's regular expressions -/

/-- `/^\s*#/` (line 41): comment-line test. -/
def commentRe : Re :=
  .seq (.rep jsWs false false) (.lit ['#'])

/-- `/^(\S.+?)\s+(\d+)(?:\/?(\d+))?\s+/` (line 58): start of the header
line — command (may contain spaces, non-greedy), then tid or pid/tid. -/
def headerStartRe : Re :=
  .seq (.group 1 (.seq (.cls (fun c => !jsWs c)) (.rep jsDot true true)))
    (.seq (.rep jsWs true false)
      (.seq (.group 2 (.rep Char.isDigit true false))
        (.seq (.opt (.seq (.opt (.cls (· = '/')))
                          (.group 3 (.rep Char.isDigit true false))))
          (.rep jsWs true false))))

/-- `/\s+(\d+\.\d+):\s+/` (line 71): the timestamp inside the header. -/
def timeRe : Re :=
  .seq (.rep jsWs true false)
    (.seq (.group 1 (.seq (.rep Char.isDigit true false)
                          (.seq (.lit ['.']) (.rep Char.isDigit true false))))
      (.seq (.lit [':']) (.rep jsWs true false)))

/-- `/(\S+):\s*$/` (line 76): the event-type token before the final
colon of the header line. -/
def evTypeRe : Re :=
  .seq (.group 1 (.rep (fun c => !jsWs c) true false))
    (.seq (.lit [':']) (.seq (.rep jsWs false false) .eos))

/-- `/^[ ]+([0-9a-zA-Z\[\].\/\-_]+)(:([0-9]+))?( \(inlined\))?$/`
(line 85): the continuation line refining the previous frame's
file/line. -/
def contLineRe : Re :=
  .seq (.rep (· = ' ') true false)
    (.seq (.group 1 (.rep isFileChar true false))
      (.seq (.opt (.group 2 (.seq (.lit [':'])
                                  (.group 3 (.rep Char.isDigit true false)))))
        (.seq (.opt (.group 4 (.lit " (inlined)".toList))) .eos)))

/-- `/^\s*([0-9a-fA-F]+) (.+?)( \((\S*)\))?$/` (line 98): a stack line —
address, symbol (non-greedy), optional parenthesised file. -/
def stackLineRe : Re :=
  .seq (.rep jsWs false false)
    (.seq (.group 1 (.rep isHexDigitJS true false))
      (.seq (.lit [' '])
        (.seq (.group 2 (.rep jsDot true true))
          (.seq (.opt (.group 3 (.seq (.lit " (".toList)
                                      (.seq (.group 4 (.rep (fun c => !jsWs c) false false))
                                            (.lit [')'])))))
            .eos))))

/-- `/\+0x[\da-f]+$/` (line 106): the trailing symbol-offset suffix. -/
def offsetRe : Re :=
  .seq (.lit "+0x".toList) (.seq (.rep isLowHex true false) .eos)

/-! ## The data model of the adapter -/

/-- `parseInt(s, 10)` on the all-digit strings produced by the `\d+`
capture groups.  (We use exact naturals; JS numbers would round above
2^53, which no digit string in the claims reaches.) -/
def parseDecNat (l : List Char) : Nat :=
  l.foldl (fun a c => a * 10 + (c.toNat - 48)) 0

/-- `parseFloat` on a string matching `\d+\.\d+`, as an exact rational. -/
def parseFloatQ (l : List Char) : ℚ :=
  let ip := l.takeWhile (·.isDigit)
  let fp := (l.dropWhile (·.isDigit)).drop 1
  (parseDecNat ip : ℚ) + (parseDecNat fp : ℚ) / ((10 : ℚ) ^ fp.length)

/-- JS truthiness of a possibly-undefined captured string: `undefined`
and the empty string are falsy. -/
def jsTruthyL (o : Option (List Char)) : Bool :=
  match o with
  | none => false
  | some l => !l.isEmpty

/-- `interface PerfStackFrame` (lines 11–16).  In TS `file` is typed
`string` but the destructuring at line 101 can leave it `undefined` (the
optional file group of the stack-line pattern), so we model it as an
`Option`; likewise `line?`. -/
structure PerfStackFrame where
  address : String
  symbolName : String
  file : Option String
  line : Option Nat
deriving DecidableEq, Repr

/-- `interface PerfEvent` (lines 18–25). -/
structure PerfEvent where
  command : Option String
  processID : Option Nat
  threadID : Option Nat
  time : Option ℚ
  eventType : String
  stack : List PerfStackFrame
deriving DecidableEq, Repr

/-- `modifyLast f l` applies `f` to the last element of `l`: the
functional counterpart of mutating the `lastWasSymbol` alias, which is
always the most recently pushed frame of `event.stack`. -/
def modifyLast (f : α → α) : List α → List α
  | [] => []
  | [a] => [f a]
  | a :: b :: rest => a :: modifyLast f (b :: rest)

/-- `symbolName.replace(/\+0x[\da-f]+$/, '')` (line 106). -/
def stripOffset (s : String) : String :=
  String.mk (replaceFirst offsetRe [] s.toList)

/-- One iteration of the stack loop of `parseEvent` (lines 83–112).  The
state is (`lastWasSymbol != null`, the frames pushed so far in push
order); the continuation-line branch mutates the last pushed frame. -/
def stackStep (st : Bool × List PerfStackFrame) (line : String) :
    Bool × List PerfStackFrame :=
  -- lines 98–111: try the stack-line pattern, push a frame on success
  let processStackLine := fun (stack : List PerfStackFrame) =>
    match reExecAt stackLineRe line.toList with
    | none => (false, stack)
    | some m =>
      let address := String.mk ((m.lookup 1).getD [])
      let symbolName := stripOffset (String.mk ((m.lookup 2).getD []))
      let file := (m.lookup 4).map String.mk
      (true, stack ++ [{ address := "0x" ++ address, symbolName, file, line := none }])
  if st.1 then
    -- lines 84–97: a continuation line refines the previous frame and is
    -- consumed; a non-matching line falls through to stack-line parsing
    match reExecAt contLineRe line.toList with
    | some m =>
      let sourceFile := String.mk ((m.lookup 1).getD [])
      let sourceLine := m.lookup 3
      (false,
        modifyLast
          (fun fr =>
            { fr with
              file := some sourceFile
              line := if jsTruthyL sourceLine
                      then some (parseDecNat (sourceLine.getD []))
                      else none })
          st.2)
    | none => processStackLine st.2
  else processStackLine st.2

/-- `parseEvent` (lines 40–116).  `none` models the `null` return. -/
def parseEvent (rawEvent : List String) : Option PerfEvent :=
  -- line 41: drop comment lines
  let lines := rawEvent.filter (fun l => (reExecAt commentRe l.toList).isNone)
  match lines with
  | [] => none                          -- lines 52–53: `lines.shift()` is undefined
  | firstLine :: rest =>
    if firstLine = "" then none         -- line 53: `if (!firstLine)` is a truthiness test
    else
      match reExecAt headerStartRe firstLine.toList with
      | none => none                    -- lines 58–59
      | some m =>
        let command : Option String := (m.lookup 1).map String.mk   -- line 61
        -- lines 63–69: group 3 is tested for truthiness
        let pidTid : Option Nat × Option Nat :=
          if jsTruthyL (m.lookup 3) then
            (some (parseDecNat ((m.lookup 2).getD [])),
             some (parseDecNat ((m.lookup 3).getD [])))
          else
            (none, some (parseDecNat ((m.lookup 2).getD [])))
        -- lines 71–74
        let time : Option ℚ :=
          match reSearchAux timeRe firstLine.toList with
          | some (_, tm) => some (parseFloatQ ((tm.lookup 1).getD []))
          | none => none
        -- lines 76–79: on no match the eventType stays `''`
        let eventType : String :=
          match reSearchAux evTypeRe firstLine.toList with
          | some (_, em) => String.mk ((em.lookup 1).getD [])
          | none => ""
        -- lines 81–113
        let stack := (rest.foldl stackStep (false, [])).2
        some { command, processID := pidTid.1, threadID := pidTid.2,
               time, eventType, stack := stack.reverse }

/-- The loop body of the generator `parseEvents` (lines 27–37):
accumulate non-blank lines, emit `parseEvent buffer` at each blank line,
and emit a final record for a non-empty trailing buffer. -/
def parseEventsGo (buffer : List String) : List String → List (Option PerfEvent)
  | [] => if buffer.length > 0 then [parseEvent buffer] else []
  | l :: rest =>
    if l = "" then parseEvent buffer :: parseEventsGo [] rest
    else parseEventsGo (buffer ++ [l]) rest

/-- `parseEvents` (lines 27–37), with the `TextFileContent` line source
modelled as the list of its lines (no trailing newlines). -/
def parseEvents (lines : List String) : List (Option PerfEvent) :=
  parseEventsGo [] lines

/-! ## The profile-building surface used by the adapter

`StackListProfileBuilder`, `TimeFormatter`, `getOrInsert` and `itMap`
live in `src/lib`, which is not among the sources; the observable slice
the adapter uses is modelled from the spec below. -/

/-- The frame descriptor handed to
`builder.appendSampleWithTimestamp` (lines 143–153). -/
structure FrameInfo where
  key : String
  name : String
  file : Option String
  line : Option Nat
deriving DecidableEq, Repr

/-- Modelled from the spec: `StackListProfileBuilder` of
`src/lib/profile` is not among the sources.  Per §4.2 of the spec,
`setName`/`setValueFormatter` are pure configuration and
`appendSampleWithTimestamp` appends one full-stack snapshot; we record
that configuration and the ordered list of appended samples, which is
everything the adapter-level claims observe.  `formatterUnit` records
the constructor argument of `TimeFormatter` (§4.4: formatters are
selected at construction time). -/
structure StackListProfileBuilder where
  name : String
  formatterUnit : String
  samples : List (List FrameInfo × ℚ)
deriving DecidableEq, Repr

/-- Modelled from the spec: the `Profile` produced by `build()` (§4.2:
`build()` finalizes and returns a Profile carrying the configured name
and formatter; §3: a Profile has a name, a tree built from the appended
samples, a value formatter).  We keep the samples themselves as the
observable content. -/
structure Profile where
  name : String
  formatterUnit : String
  samples : List (List FrameInfo × ℚ)
deriving DecidableEq, Repr

def StackListProfileBuilder.build (b : StackListProfileBuilder) : Profile :=
  { name := b.name, formatterUnit := b.formatterUnit, samples := b.samples }

/-- The `ProfileGroup` result shape (`{name, indexToView, profiles}`,
lines 160–164). -/
structure ProfileGroup where
  name : String
  indexToView : Nat
  profiles : List Profile
deriving DecidableEq, Repr

/-- The JS template-literal rendering of the possibly-undefined `file`
field (line 146 interpolates it even when it is `undefined`). -/
def jsStr (o : Option String) : String :=
  o.getD "undefined"

/-- The frame mapping of lines 144–151. -/
def frameInfoOf (f : PerfStackFrame) : FrameInfo :=
  { key := f.symbolName ++ " (" ++ jsStr f.file ++ ")"
    name := if f.symbolName = "[unknown]" then "??? (" ++ jsStr f.file ++ ")"
            else f.symbolName
    file := f.file
    line := f.line }

/-- The profile-name computation of lines 129–133.  The `if (event.x)`
tests are JS truthiness tests: a `null` field, an empty command, or a
zero pid/tid all skip their part. -/
def profileNameOf (event : PerfEvent) : String :=
  let parts0 : List String := []
  let parts1 :=
    match event.command with
    | some c => if c ≠ "" then parts0 ++ [c] else parts0
    | none => parts0
  let parts2 :=
    match event.processID with
    | some p => if p ≠ 0 then parts1 ++ ["pid: " ++ toString p] else parts1
    | none => parts1
  let parts3 :=
    match event.threadID with
    | some t => if t ≠ 0 then parts2 ++ ["tid: " ++ toString t] else parts2
    | none => parts2
  String.intercalate " " parts3

/-- The loop body of `importFromLinuxPerf` (lines 123–154).  The state is
(`eventType`, the `profiles` map).  A JS `Map` preserves insertion
order, so the map is an association list extended at the end;
`getOrInsert` (from `src/lib/utils`, modelled from the spec: return the
existing value for the key, else insert the fallback) plus the aliased
mutation `builder.appendSampleWithTimestamp(...)` update the entry in
place. -/
def importStep (st : Option String × List (String × StackListProfileBuilder))
    (ev : Option PerfEvent) : Option String × List (String × StackListProfileBuilder) :=
  match ev with
  | none => st                                   -- line 124
  | some event =>
    -- line 125: `eventType != null && eventType != event.eventType`
    if (match st.1 with | some t => t != event.eventType | none => false) then st
    else
      match event.time with
      | none => st                               -- line 126
      | some t =>
        -- lines 127–139
        let profileName := profileNameOf event
        let profiles1 :=
          if (st.2.lookup profileName).isSome then st.2
          else st.2 ++ [(profileName,
            { name := profileName, formatterUnit := "seconds", samples := [] })]
        -- lines 143–153
        let sample := event.stack.map frameInfoOf
        let profiles2 := profiles1.map (fun kb =>
          if kb.1 = profileName
          then (kb.1, { kb.2 with samples := kb.2.samples ++ [(sample, t)] })
          else kb)
        (some event.eventType, profiles2)

/-- The final `profiles` map of the import loop. -/
def runImport (lines : List String) : List (String × StackListProfileBuilder) :=
  ((parseEvents lines).foldl importStep (none, [])).2

/-- `importFromLinuxPerf` (lines 118–165).  `none` models the `null`
"not recognized" return. -/
def importFromLinuxPerf (lines : List String) : Option ProfileGroup :=
  let profiles := runImport lines
  if profiles.length = 0 then none               -- lines 156–158
  else
    some { name := if profiles.length = 1
                   then ((profiles.map Prod.fst).headD "")   -- first key; nonempty here
                   else ""
           indexToView := 0
           profiles := profiles.map (fun kb => kb.2.build) }

/-! ## Auxiliary definitions used by the claims -/

/-- The record-rejection condition of `parseEvent`: the record parses to
`null` exactly when, after comment filtering, there is no first line, the
first line is empty, or the first line fails the
`^(\S.+?)\s+(\d+)(?:\/?(\d+))?\s+` header-start pattern. -/
def parseEventRejects (rawEvent : List String) : Bool :=
  match rawEvent.filter (fun l => (reExecAt commentRe l.toList).isNone) with
  | [] => true
  | firstLine :: _ => firstLine == "" || (reExecAt headerStartRe firstLine.toList).isNone

/-- The profile-naming rule as amended: the command part is included iff
the command is present and nonempty; a pid/tid part is included iff the
field is present and nonzero (JS truthiness of the parsed number). -/
def profileNameSpec (e : PerfEvent) : String :=
  String.intercalate " "
    ((match e.command with
      | some c => if c = "" then [] else [c]
      | none => [])
      ++ (match e.processID with
          | some p => if p = 0 then [] else ["pid: " ++ toString p]
          | none => [])
      ++ (match e.threadID with
          | some t => if t = 0 then [] else ["tid: " ++ toString t]
          | none => []))

/-- A character list that the offset pattern `/\+0x[\da-f]+$/` matches in
full: the literal `+0x`, then at least one character, all of them
lowercase-hex, running to the end. -/
def isOffsetTail (l : List Char) : Bool :=
  "+0x".toList.isPrefixOf l && !(l.drop 3).isEmpty && (l.drop 3).all isLowHex

/-! ## Helper lemmas -/

theorem lookup_none_keys {β : Type} (m : List (String × β)) (k : String)
    (h : m.lookup k = none) : ∀ kb ∈ m, kb.1 ≠ k := by
  induction m with
  | nil => simp
  | cons kb' rest ih =>
    intro kb hkb
    rcases List.mem_cons.mp hkb with rfl | hmem
    · intro hk
      subst hk
      simp [List.lookup] at h
    · refine ih ?_ kb hmem
      rcases hbeq : (k == kb'.1) with _ | _
      · simpa [List.lookup, hbeq] using h
      · simp [List.lookup, hbeq] at h

theorem upsert_map_id (m : List (String × StackListProfileBuilder)) (k : String)
    (smp : List FrameInfo × ℚ)
    (h : ∀ kb ∈ m, kb.1 ≠ k) :
    m.map (fun kb =>
      if kb.1 = k
      then (kb.1, { kb.2 with samples := kb.2.samples ++ [smp] })
      else kb) = m := by
  induction m with
  | nil => rfl
  | cons kb rest ih =>
    have hk := h kb (by simp)
    simp only [List.map_cons, if_neg hk, List.cons.injEq, true_and]
    exact ih (fun kb' hkb' => h kb' (List.mem_cons_of_mem _ hkb'))

/-- Every builder in the running map is named after its key: it was
created by `setName(profileName)` under that very key and sample
appension preserves the name. -/
theorem importStep_name_key (st : Option String × List (String × StackListProfileBuilder))
    (ev : Option PerfEvent)
    (h : ∀ kb ∈ st.2, kb.2.name = kb.1) :
    ∀ kb ∈ (importStep st ev).2, kb.2.name = kb.1 := by
  cases ev with
  | none => exact h
  | some e =>
    simp only [importStep]
    split
    · exact h
    · cases hte : e.time with
      | none => exact h
      | some t =>
        intro kb hkb
        simp only at hkb
        obtain ⟨kb₀, hkb₀, rfl⟩ := List.mem_map.mp hkb
        have hname₀ : kb₀.2.name = kb₀.1 := by
          by_cases hins : (st.2.lookup (profileNameOf e)).isSome
          · exact h kb₀ (by simpa [hins] using hkb₀)
          · simp only [hins, if_false] at hkb₀
            rcases List.mem_append.mp hkb₀ with hmem | hnew
            · exact h kb₀ hmem
            · simp only [List.mem_singleton] at hnew
              subst hnew
              rfl
        by_cases hkey : kb₀.1 = profileNameOf e <;> simp [hkey, hname₀]

theorem runImport_name_key (lines : List String) :
    ∀ kb ∈ runImport lines, kb.2.name = kb.1 := by
  have main : ∀ (evs : List (Option PerfEvent))
      (st : Option String × List (String × StackListProfileBuilder)),
      (∀ kb ∈ st.2, kb.2.name = kb.1) →
      ∀ kb ∈ (evs.foldl importStep st).2, kb.2.name = kb.1 := by
    intro evs
    induction evs with
    | nil => intro st h; exact h
    | cons ev rest ih => intro st h; exact ih _ (importStep_name_key st ev h)
  exact main _ _ (by simp)

/-- A record that is `null` or has no timestamp leaves the whole import
state (metric and builder map alike) unchanged. -/
theorem importStep_skip (st : Option String × List (String × StackListProfileBuilder))
    (oe : Option PerfEvent)
    (h : match oe with | none => True | some e => e.time = none) :
    importStep st oe = st := by
  cases oe with
  | none => rfl
  | some e =>
    simp only [importStep]
    split
    · rfl
    · simp only at h
      simp [h]

theorem foldl_importStep_skip (evs : List (Option PerfEvent))
    (st : Option String × List (String × StackListProfileBuilder))
    (h : ∀ oe ∈ evs, (match oe with | none => True | some e => e.time = none)) :
    evs.foldl importStep st = st := by
  induction evs generalizing st with
  | nil => rfl
  | cons oe rest ih =>
    rw [List.foldl_cons, importStep_skip st oe (h oe (by simp))]
    exact ih st (fun oe' hoe' => h oe' (List.mem_cons_of_mem _ hoe'))

/-! ## The claims -/

/-- C1 (counterexample): in
`["foo 123 cycles:", "", "bar 456 1.5: cache-misses:"]` the first parsed
record is typed `cycles`, yet — because it has no timestamp and the
metric is only recorded after the timestamp check — the later
`cache-misses` record is not discarded: it creates the single Profile of
the import.  This refutes "the event type of the first record becomes
the single metric of the whole import, and every subsequent parsed
record whose event type differs is discarded in full". -/
theorem C1_first_record_cex :
    ((parseEvents ["foo 123 cycles:", "", "bar 456 1.5: cache-misses:"]).map
        (Option.map PerfEvent.eventType) = [some "cycles", some "cache-misses"])
    ∧ ((importFromLinuxPerf ["foo 123 cycles:", "", "bar 456 1.5: cache-misses:"]).map
        ProfileGroup.name = some "bar tid: 456")
    ∧ ((importFromLinuxPerf ["foo 123 cycles:", "", "bar 456 1.5: cache-misses:"]).map
        (fun g => g.profiles.length) = some 1) :=
  ⟨rfl, rfl, rfl⟩

/-- C1 (amended): the event type of the first *accepted* record (parsed,
with a timestamp) becomes the metric, and once a metric is set, any
parsed record with a different event type leaves the import state
unchanged — it creates no builder and contributes no sample. -/
theorem C1_event_type_gate (st : Option String × List (String × StackListProfileBuilder))
    (e : PerfEvent) :
    (∀ t₀, st.1 = some t₀ → e.eventType ≠ t₀ → importStep st (some e) = st)
    ∧ (st.1 = none → ∀ q, e.time = some q →
        (importStep st (some e)).1 = some e.eventType) := by
  constructor
  · intro t₀ h1 h2
    simp only [importStep, h1]
    rw [if_pos (by simpa [bne_iff_ne] using Ne.symm h2)]
  · intro h1 q h2
    simp [importStep, h1, h2]

theorem C1_event_type_gate_witness :
    importStep (some "cycles", [])
        (some { command := none, processID := none, threadID := none,
                time := some 1, eventType := "cache-misses", stack := [] })
      = (some "cycles", []) :=
  (C1_event_type_gate _ _).1 "cycles" rfl (by decide)

/-- C2: the adapter returns `null` exactly when the builder map is
empty; with exactly one profile the group carries that profile's name
and `indexToView = 0`; with two or more, the group name is `""` and
`indexToView = 0`. -/
theorem C2_group_shape (lines : List String) :
    (importFromLinuxPerf lines = none ↔ (runImport lines).length = 0)
    ∧ ((runImport lines).length = 1 →
        ∃ g p, importFromLinuxPerf lines = some g ∧ g.profiles = [p]
          ∧ g.name = p.name ∧ g.indexToView = 0)
    ∧ (2 ≤ (runImport lines).length →
        ∃ g, importFromLinuxPerf lines = some g ∧ g.name = ""
          ∧ g.indexToView = 0
          ∧ g.profiles = (runImport lines).map (fun kb => kb.2.build)) := by
  refine ⟨?_, ?_, ?_⟩
  · unfold importFromLinuxPerf
    by_cases h : (runImport lines).length = 0 <;> simp [h]
  · intro h1
    obtain ⟨kb, hkb⟩ := List.length_eq_one.mp h1
    have hname : kb.2.name = kb.1 := runImport_name_key lines kb (by simp [hkb])
    refine ⟨{ name := kb.1, indexToView := 0, profiles := [kb.2.build] },
      kb.2.build, ?_, rfl, ?_, rfl⟩
    · simp [importFromLinuxPerf, hkb]
    · simp [StackListProfileBuilder.build, hname]
  · intro h2
    have h0 : ¬ (runImport lines).length = 0 := by omega
    have h1 : ¬ (runImport lines).length = 1 := by omega
    refine ⟨{ name := "", indexToView := 0,
              profiles := (runImport lines).map (fun kb => kb.2.build) },
      ?_, rfl, rfl, rfl⟩
    simp [importFromLinuxPerf, h0, h1]

theorem C2_group_shape_witness :
    ∃ g p, importFromLinuxPerf ["foo 123 1.5: cycles:"] = some g
      ∧ g.profiles = [p] ∧ g.name = p.name ∧ g.indexToView = 0 :=
  (C2_group_shape ["foo 123 1.5: cycles:"]).2.1 (by rfl)

/-- C3: a parsed record with no parseable timestamp leaves the import
state unchanged — no builder, no sample, no metric — and an input all of
whose records are unparseable or timeless yields the `null` "not
recognized" result. -/
theorem C3_timeless_discarded :
    (∀ (st : Option String × List (String × StackListProfileBuilder))
        (e : PerfEvent), e.time = none → importStep st (some e) = st)
    ∧ (∀ lines : List String,
        ((parseEvents lines).all fun oe =>
            match oe with | none => true | some e => e.time.isNone) = true →
        importFromLinuxPerf lines = none) := by
  constructor
  · intro st e h
    exact importStep_skip st (some e) h
  · intro lines h
    have hall : ∀ oe ∈ parseEvents lines,
        (match oe with | none => True | some e => e.time = none) := by
      intro oe hoe
      have := List.all_eq_true.mp h oe hoe
      cases oe with
      | none => trivial
      | some e => simpa [Option.isNone_iff_eq_none] using this
    have hrun : runImport lines = [] := by
      unfold runImport
      rw [foldl_importStep_skip _ _ hall]
    simp [importFromLinuxPerf, hrun]

theorem C3_timeless_discarded_witness :
    importStep (none, [])
        (some { command := some "foo", processID := none, threadID := some 123,
                time := none, eventType := "cycles", stack := [] })
      = (none, [])
    ∧ importFromLinuxPerf ["foo 123 cycles:"] = none :=
  ⟨C3_timeless_discarded.1 _ _ rfl, C3_timeless_discarded.2 _ (by rfl)⟩

/-- C4: the import is a total function of its input lines — for every
input it either returns the `null` "not recognized" value or a group
with at least one profile; no input can make it abort. -/
theorem C4_import_total (lines : List String) :
    importFromLinuxPerf lines = none
    ∨ ∃ g, importFromLinuxPerf lines = some g ∧ g.profiles ≠ [] := by
  by_cases h : (runImport lines).length = 0
  · left
    simp [importFromLinuxPerf, h]
  · right
    refine ⟨{ name := if (runImport lines).length = 1
                      then (((runImport lines).map Prod.fst).headD "")
                      else "",
              indexToView := 0,
              profiles := (runImport lines).map (fun kb => kb.2.build) }, ?_, ?_⟩
    · simp [importFromLinuxPerf, h]
    · simp only [ne_eq, List.map_eq_nil_iff]
      exact fun hnil => h (by simp [hnil])

/-- C5 (counterexample): the record `foo 0 1.5: cycles:` has a non-null
thread ID (0), yet its profile is named `"foo"`, not `"foo tid: 0"`:
the `if (event.threadID)` truthiness test also drops a zero field.
This refutes "a part is omitted if and only if the corresponding field
is null". -/
theorem C5_zero_tid_cex :
    ((parseEvent ["foo 0 1.5: cycles:"]).map PerfEvent.threadID = some (some 0))
    ∧ ((runImport ["foo 0 1.5: cycles:"]).map Prod.fst = ["foo"]) :=
  ⟨rfl, rfl⟩

/-- C5 (amended): the profile name joins with single spaces exactly the
parts whose field is JS-truthy: the command when present and nonempty,
`pid: <n>` when the process ID is present and nonzero, `tid: <n>` when
the thread ID is present and nonzero. -/
theorem C5_profile_name (e : PerfEvent) :
    profileNameOf e = profileNameSpec e := by
  rcases e with ⟨c, p, t, ti, ev, st⟩
  unfold profileNameOf profileNameSpec
  rcases c with _ | c <;> rcases p with _ | p <;> rcases t with _ | t <;>
    simp only [] <;>
    first
      | (split_ifs <;> simp_all [List.append_assoc])
      | simp_all [List.append_assoc]

/-- C7 (counterexample): the header `foo 123 4.5: x` fails the claimed
grammar — there is no `<eventtype>:` token at its end (the event-type
search finds nothing) — yet the record is *not* discarded: it is parsed
with event type `""` and produces a profile group. -/
theorem C7_missing_event_type_cex :
    reSearchAux evTypeRe ("foo 123 4.5: x".toList) = none
    ∧ ((parseEvent ["foo 123 4.5: x"]).map PerfEvent.eventType = some "")
    ∧ (importFromLinuxPerf ["foo 123 4.5: x"]).isSome = true :=
  ⟨rfl, rfl, rfl⟩

/-- C7 (amended): a record is discarded by the parser exactly when its
first non-comment line is missing, empty, or fails the
`<command><ws><tid>[/<pid>]<ws>` header prefix; a discarded (null)
record contributes nothing to the import.  A header whose final
`<eventtype>:` token is missing does *not* discard the record — the
event type merely defaults to the empty string (and a missing timestamp
is a separate, later check). -/
theorem C7_record_discard (rawEvent : List String) :
    (parseEvent rawEvent = none ↔ parseEventRejects rawEvent = true)
    ∧ (∀ st, importStep st none = st) := by
  constructor
  · unfold parseEvent parseEventRejects
    cases hf : rawEvent.filter (fun l => (reExecAt commentRe l.toList).isNone) with
    | nil => simp
    | cons fl rest =>
      by_cases h1 : fl = ""
      · simp [h1]
      · cases h2 : reExecAt headerStartRe fl.data with
        | none => simp [h1, h2]
        | some m => simp [h1, h2]
  · intro st
    rfl

/-- C8 (counterexample): the records `aa 0/3 1.0: cycles:` (process ID
0) and `aa 3 2.0: cycles:` (process ID absent) differ in their
(command, pid, tid) triples, yet both land in the single builder keyed
`"aa tid: 3"` — the zero pid is dropped from the name, so the two keys
collide.  This refutes "two records differing in any of the three
fields go to different Builders". -/
theorem C8_key_collision_cex :
    ((parseEvents ["aa 0/3 1.0: cycles:", "", "aa 3 2.0: cycles:"]).map
        (Option.map PerfEvent.processID) = [some (some 0), some none])
    ∧ ((runImport ["aa 0/3 1.0: cycles:", "", "aa 3 2.0: cycles:"]).map Prod.fst
        = ["aa tid: 3"])
    ∧ ((runImport ["aa 0/3 1.0: cycles:", "", "aa 3 2.0: cycles:"]).map
        (fun kb => kb.2.samples.length) = [2]) :=
  ⟨rfl, rfl, rfl⟩

/-- C8 (amended): accepted records are routed by the *derived
profile-name string*: a first encounter of a name appends a fresh
builder (named by the key, with a seconds formatter and exactly the new
sample), a later encounter appends the sample to the builder under that
name; records agreeing on (command, pid, tid) always share a key, while
records with different triples share a builder whenever their derived
names collide. -/
theorem C8_routing (st : Option String × List (String × StackListProfileBuilder))
    (e : PerfEvent) (q : ℚ) (htime : e.time = some q)
    (hgate : match st.1 with | some t₀ => t₀ = e.eventType | none => True) :
    (importStep st (some e)).1 = some e.eventType
    ∧ (st.2.lookup (profileNameOf e) = none →
        (importStep st (some e)).2
          = st.2 ++ [(profileNameOf e,
              { name := profileNameOf e, formatterUnit := "seconds",
                samples := [(e.stack.map frameInfoOf, q)] })])
    ∧ (∀ b, st.2.lookup (profileNameOf e) = some b →
        (importStep st (some e)).2
          = st.2.map (fun kb =>
              if kb.1 = profileNameOf e
              then (kb.1, { kb.2 with samples := kb.2.samples ++ [(e.stack.map frameInfoOf, q)] })
              else kb))
    ∧ (∀ e' : PerfEvent, e.command = e'.command → e.processID = e'.processID →
        e.threadID = e'.threadID → profileNameOf e = profileNameSpec e') := by
  have hcond : (match st.1 with
      | some t => t != e.eventType | none => false) = false := by
    cases hst : st.1 with
    | none => rfl
    | some t₀ =>
      rw [hst] at hgate
      simpa [bne_iff_ne] using hgate
  refine ⟨?_, ?_, ?_, ?_⟩
  · simp [importStep, hcond, htime]
  · intro hnone
    have hkeys := lookup_none_keys st.2 (profileNameOf e) hnone
    simp only [importStep, hcond, Bool.false_eq_true, if_false, htime, hnone,
      Option.isSome_none, List.map_append]
    rw [upsert_map_id st.2 (profileNameOf e) _ hkeys]
    simp
  · intro b hsome
    simp [importStep, hcond, htime, hsome]
  · intro e' h1 h2 h3
    rw [show profileNameOf e = profileNameOf e' by
      simp only [profileNameOf, h1, h2, h3]]
    exact C5_profile_name e'

theorem C8_routing_witness :
    (importStep (none, [])
        (some { command := some "aa", processID := some 0, threadID := some 3,
                time := some 1, eventType := "cycles", stack := [] })).2
      = [("aa tid: 3",
          { name := "aa tid: 3", formatterUnit := "seconds",
            samples := [([], 1)] })] := by
  have h := C8_routing (none, [])
      { command := some "aa", processID := some 0, threadID := some 3,
        time := some 1, eventType := "cycles", stack := [] } 1 rfl trivial
  exact (h.2.1 rfl).trans (by rfl)

/-- C9: the import is a pure, deterministic function of the input line
sequence: equal inputs give equal results. -/
theorem C9_deterministic (l₁ l₂ : List String) (h : l₁ = l₂) :
    importFromLinuxPerf l₁ = importFromLinuxPerf l₂ := by
  rw [h]

theorem C9_deterministic_witness :
    importFromLinuxPerf ["foo 123 1.5: cycles:"]
      = importFromLinuxPerf ["foo 123 1.5: cycles:"] :=
  C9_deterministic _ _ rfl

/-- C10: the frame key handed to a builder is exactly
`<symbolName> (<file>)` (with the stored, already offset-stripped
symbol), so the address and the source line contribute nothing: frames
agreeing on symbol and file get the same key. -/
theorem C10_frame_key (f₁ f₂ : PerfStackFrame)
    (hs : f₁.symbolName = f₂.symbolName) (hf : f₁.file = f₂.file) :
    (frameInfoOf f₁).key = f₁.symbolName ++ " (" ++ jsStr f₁.file ++ ")"
    ∧ (frameInfoOf f₁).key = (frameInfoOf f₂).key := by
  constructor
  · rfl
  · simp [frameInfoOf, hs, hf]

/-! ### C6: characterization of the offset-suffix strip -/

theorem takeWhile_all_eq (p : Char → Bool) (l : List Char) (h : l.all p = true) :
    l.takeWhile p = l := by
  induction l with
  | nil => rfl
  | cons c t ih =>
    simp only [List.all_cons, Bool.and_eq_true] at h
    simp [List.takeWhile_cons, h.1, ih h.2]

theorem takeWhile_length_lt (p : Char → Bool) (l : List Char) (h : ¬ l.all p = true) :
    (l.takeWhile p).length < l.length := by
  induction l with
  | nil => simp at h
  | cons c t ih =>
    by_cases hc : p c
    · simp only [List.all_cons, hc, Bool.true_and] at h
      simpa [List.takeWhile_cons, hc] using ih h
    · simp [List.takeWhile_cons, hc]

theorem foldr_firstSome_none (g : Nat → Option Caps) (L : List Nat)
    (h : ∀ i ∈ L, g i = none) :
    List.foldr (fun i acc =>
      match g i with | some res => some res | none => acc) none L = none := by
  induction L with
  | nil => rfl
  | cons a t ih =>
    rw [List.foldr_cons, h a (List.mem_cons_self a t)]
    exact ih (fun i hi => h i (List.mem_cons_of_mem _ hi))

theorem isOffsetTail_eq_true_iff (l : List Char) :
    isOffsetTail l = true
      ↔ ("+0x".toList).isPrefixOf l = true ∧ l.drop 3 ≠ []
        ∧ (l.drop 3).all isLowHex = true := by
  unfold isOffsetTail
  constructor
  · intro h
    simp only [Bool.and_eq_true] at h
    obtain ⟨⟨h1, h2⟩, h3⟩ := h
    refine ⟨h1, ?_, h3⟩
    intro hcon
    rw [hcon] at h2
    exact absurd h2 (by decide)
  · rintro ⟨h1, h2, h3⟩
    simp only [Bool.and_eq_true]
    refine ⟨⟨h1, ?_⟩, h3⟩
    cases hd : l.drop 3 with
    | nil => exact absurd hd h2
    | cons c t => rfl

/-- The `[\da-f]+$` part of the offset pattern: after the literal, the
match succeeds exactly when the whole remainder is a nonempty run of
lowercase-hex characters, and then the continuation is invoked at the
end of the input. -/
theorem mtch_repPlus_eos (p : Char → Bool) (l : List Char) (caps : Caps)
    (k : List Char → Caps → Option Caps) :
    mtch (.seq (.rep p true false) .eos) l caps k
      = if l ≠ [] ∧ l.all p = true then k [] caps else none := by
  have hunfold : mtch (.seq (.rep p true false) .eos) l caps k
      = if (l.takeWhile p).length < 1 then none
        else List.foldr (fun i acc =>
            match (if (l.drop i).isEmpty = true then k (l.drop i) caps else none) with
            | some res => some res
            | none => acc) none
          (List.range' 1 ((l.takeWhile p).length - 1 + 1)).reverse := rfl
  have hinner : ∀ i, i < l.length →
      (if (l.drop i).isEmpty = true then k (l.drop i) caps else none) = none := by
    intro i hi
    have hne : ¬ ((l.drop i).isEmpty = true) := by
      simp only [List.isEmpty_iff]
      intro hcon
      have hld := List.length_drop i l
      rw [hcon] at hld
      simp only [List.length_nil] at hld
      omega
    rw [if_neg hne]
  rw [hunfold]
  by_cases hnil : l = []
  · subst hnil
    simp
  · have hpos : 0 < l.length := List.length_pos.mpr hnil
    by_cases hall : l.all p = true
    · have htw : (l.takeWhile p).length = l.length := by
        rw [takeWhile_all_eq p l hall]
      rw [htw, if_neg (by omega), if_pos ⟨hnil, hall⟩]
      obtain ⟨m, hm⟩ : ∃ m, l.length = m + 1 := ⟨l.length - 1, by omega⟩
      have hrange : (List.range' 1 (l.length - 1 + 1)).reverse
          = l.length :: (List.range' 1 m).reverse := by
        rw [show l.length - 1 + 1 = m + 1 by omega, List.range'_concat]
        simp [hm, Nat.add_comm]
      rw [hrange, List.foldr_cons]
      have hend : (if (l.drop l.length).isEmpty = true
          then k (l.drop l.length) caps else none) = k [] caps := by
        simp [List.drop_length]
      rw [hend]
      cases hk : k [] caps with
      | some res => rfl
      | none =>
        exact foldr_firstSome_none _ _ (fun i hi => hinner i (by
          have := List.mem_range'_1.mp (List.mem_reverse.mp hi)
          omega))
    · have hlt : (l.takeWhile p).length < l.length := takeWhile_length_lt p l hall
      have hRHS : ¬ (l ≠ [] ∧ l.all p = true) := fun hcon => hall hcon.2
      rw [if_neg hRHS]
      by_cases hz : (l.takeWhile p).length < 1
      · rw [if_pos hz]
      · rw [if_neg hz]
        exact foldr_firstSome_none _ _ (fun i hi => hinner i (by
          have := List.mem_range'_1.mp (List.mem_reverse.mp hi)
          omega))

/-- `offsetRe.exec` on a character list: it matches exactly the
`isOffsetTail` strings, in full (the whole-match capture is the entire
input). -/
theorem reExecAt_offsetRe (l : List Char) :
    reExecAt offsetRe l = if isOffsetTail l = true then some [(0, l)] else none := by
  have hstep : reExecAt offsetRe l
      = if ("+0x".toList).isPrefixOf l
        then mtch (.seq (.rep isLowHex true false) .eos) (l.drop 3) []
          (fun s' caps' => some (setCap 0 (charsTaken l s') caps'))
        else none := rfl
  rw [hstep]
  by_cases hpre : ("+0x".toList).isPrefixOf l
  · rw [if_pos hpre, mtch_repPlus_eos]
    by_cases htail : l.drop 3 ≠ [] ∧ (l.drop 3).all isLowHex = true
    · rw [if_pos htail]
      have hoff : isOffsetTail l = true :=
        (isOffsetTail_eq_true_iff l).mpr ⟨hpre, htail.1, htail.2⟩
      rw [if_pos hoff]
      simp [setCap, charsTaken, List.take_length]
    · rw [if_neg htail]
      have hoff : ¬ isOffsetTail l = true := fun hcon =>
        htail ⟨((isOffsetTail_eq_true_iff l).mp hcon).2.1,
               ((isOffsetTail_eq_true_iff l).mp hcon).2.2⟩
      rw [if_neg hoff]
  · rw [if_neg hpre]
    have hoff : ¬ isOffsetTail l = true := fun hcon =>
      hpre ((isOffsetTail_eq_true_iff l).mp hcon).1
    rw [if_neg hoff]

/-- Leftmost search for the offset pattern: if position `i` is the first
position whose remainder is an offset tail, the search reports it. -/
theorem reSearchAux_offsetRe_some (s : List Char) (i : Nat)
    (hi : isOffsetTail (s.drop i) = true)
    (hmin : ∀ j, j < i → isOffsetTail (s.drop j) = false) :
    reSearchAux offsetRe s = some (i, [(0, s.drop i)]) := by
  induction s generalizing i with
  | nil =>
    have : ([] : List Char).drop i = [] := by simp
    rw [this] at hi
    exact absurd hi (by decide)
  | cons c t ih =>
    cases i with
    | zero =>
      simp only [List.drop_zero] at hi
      simp only [reSearchAux, reExecAt_offsetRe, hi, if_true]
      simp
    | succ i' =>
      have h0 : isOffsetTail (c :: t) = false := by
        simpa using hmin 0 (Nat.succ_pos i')
      simp only [reSearchAux, reExecAt_offsetRe, h0]
      rw [if_neg (by simp)]
      rw [ih i' (by simpa using hi)
        (fun j hj => by simpa using hmin (j + 1) (Nat.succ_lt_succ hj))]
      rfl

/-- Leftmost search for the offset pattern: if no position's remainder
is an offset tail, the search fails. -/
theorem reSearchAux_offsetRe_none (s : List Char)
    (h : ∀ i, isOffsetTail (s.drop i) = false) :
    reSearchAux offsetRe s = none := by
  induction s with
  | nil =>
    have h0 := h 0
    simp only [List.drop_zero] at h0
    simp [reSearchAux, reExecAt_offsetRe, h0]
  | cons c t ih =>
    have h0 := h 0
    simp only [List.drop_zero] at h0
    simp only [reSearchAux, reExecAt_offsetRe, h0]
    rw [if_neg (by simp)]
    rw [ih (fun i => by simpa using h (i + 1))]
    rfl

/-- C6 (counterexample): the stack line `12ab bar+0xA (f)` carries the
symbol `bar+0xA`, whose trailing `+0xA` is `+0x` followed by the
hexadecimal digit `A` — yet the stored symbol keeps the suffix, because
the strip pattern `[\da-f]` accepts lowercase hex digits only.  This
refutes "a trailing offset suffix of the form `+0x` followed by one or
more hexadecimal digits at the end of the symbol name is stripped". -/
theorem C6_uppercase_hex_cex :
    ((parseEvent ["foo 123 1.5: cycles:", "12ab bar+0xA (f)"]).map
        (fun e => e.stack.map PerfStackFrame.symbolName) = some ["bar+0xA"])
    ∧ stripOffset "bar+0xA" = "bar+0xA" :=
  ⟨rfl, rfl⟩

/-- C6 (amended): the stored symbol is the raw symbol with a trailing
`+0x<hex>` suffix removed, where the hex digits are *lowercase* only
(`[0-9a-f]`): if no position of the symbol starts a full
`+0x`+lowercase-hex run to the end, the symbol is unchanged (in
particular when the digits after `+0x` include uppercase hex); otherwise
the symbol is cut at the first such position. -/
theorem C6_offset_strip (sym : String) :
    ((∀ i, i < sym.toList.length → isOffsetTail (sym.toList.drop i) = false) →
      stripOffset sym = sym)
    ∧ (∀ i, isOffsetTail (sym.toList.drop i) = true →
        (∀ j, j < i → isOffsetTail (sym.toList.drop j) = false) →
        stripOffset sym = String.mk (sym.toList.take i)) := by
  constructor
  · intro h
    have hall : ∀ i, isOffsetTail (sym.toList.drop i) = false := by
      intro i
      by_cases hlt : i < sym.toList.length
      · exact h i hlt
      · rw [List.drop_eq_nil_of_le (le_of_not_lt hlt)]
        decide
    unfold stripOffset replaceFirst
    rw [reSearchAux_offsetRe_none _ hall]
    rfl
  · intro i hi hmin
    have hlen : i < sym.toList.length := by
      by_contra hgt
      rw [List.drop_eq_nil_of_le (le_of_not_lt hgt)] at hi
      exact absurd hi (by decide)
    have harith : i + (sym.toList.drop i).length = sym.toList.length := by
      rw [List.length_drop]
      omega
    have hstrip : stripOffset sym
        = String.mk (sym.toList.take i ++ []
            ++ sym.toList.drop (i + (sym.toList.drop i).length)) := by
      unfold stripOffset replaceFirst
      rw [reSearchAux_offsetRe_some _ i hi hmin]
      rfl
    rw [hstrip, harith, List.drop_length]
    simp

theorem C6_offset_strip_witness :
    stripOffset "cpu_startup_entry+0x800047c022ec" = "cpu_startup_entry"
    ∧ stripOffset "main" = "main" :=
  ⟨((C6_offset_strip "cpu_startup_entry+0x800047c022ec").2 17 (by decide)
      (by decide)).trans (by rfl),
    (C6_offset_strip "main").1 (by decide)⟩

theorem C10_frame_key_witness :
    (frameInfoOf { address := "0x10", symbolName := "bar", file := some "lib.c",
                   line := none }).key = "bar (lib.c)"
    ∧ (frameInfoOf { address := "0x10", symbolName := "bar", file := some "lib.c",
                     line := none }).key
      = (frameInfoOf { address := "0x20", symbolName := "bar", file := some "lib.c",
                       line := some 7 }).key := by
  have h := C10_frame_key
      { address := "0x10", symbolName := "bar", file := some "lib.c", line := none }
      { address := "0x20", symbolName := "bar", file := some "lib.c", line := some 7 }
      rfl rfl
  exact ⟨h.1.trans (by rfl), h.2⟩

end LinuxPerf
